import Mathlib

/-!
Verification of the credit-report pipeline
(`src/cleaning/format_reports.py`, `src/analysis/analyze_dpd.py`,
`src/analysis/analyze_max_dpd_months.py`, `main.py`).

The Python code is shallowly embedded as executable Lean definitions:

* Python strings are `String`; `str.split(c)` (single-character separator) is
  `pySplit`, `str.strip()` is `pyStrip` (ASCII whitespace; the inputs in
  question contain no exotic Unicode whitespace), `int(s)` is `pyInt?`
  (optional surrounding whitespace, optional single sign, decimal digits).
* Python dicts are insertion-ordered association lists (`Dict`); updating an
  existing key keeps its position (`dictSet`), exactly like CPython dicts.
* The dynamic value universe produced by `xml_to_dict` (str / dict / list) is
  the tagged type `NValue`.
* XML elements (`xml.etree.ElementTree.Element`) are `RawNode`: a tag, an
  attribute dict (attribute names are unique per element, guaranteed by the
  XML parser), an ordered forest of children, and optional text.
  `RawForest` is a copy of `List RawNode` made mutual with `RawNode` so that
  the recursion in `xml_to_dict` is structural and computable.
* Python exceptions (`ValueError` from unpacking/`int`, `AttributeError` from
  calling `.get`/`.split` on a non-dict/non-str) are `Except String`.
* Python floats in `analyze_customer_dpd` are modeled as exact rationals;
  `round(x, 2)` is `round2` (the claims checked here do not depend on
  floating-point representation or on tie-breaking at half-cent values).
-/

/-! ### Python string primitives -/

/-- Splitting a character list at every occurrence of `sep`, keeping empty
segments, as Python's `str.split(sep)` does for a one-character separator. -/
def splitChar (sep : Char) : List Char → List (List Char)
  | [] => [[]]
  | c :: cs =>
    let r := splitChar sep cs
    if c = sep then [] :: r
    else
      match r with
      | h :: t => (c :: h) :: t
      | [] => [[c]]

/-- Python `s.split(sep)` for a single-character separator. -/
def pySplit (sep : Char) (s : String) : List String :=
  (splitChar sep s.data).map String.mk

/-- Python `s.strip()`: remove leading and trailing whitespace. -/
def pyStrip (s : String) : String :=
  String.mk (((s.data.dropWhile Char.isWhitespace).reverse.dropWhile Char.isWhitespace).reverse)

/-- Value of a list of decimal digits. -/
def digitsVal (cs : List Char) : Nat :=
  cs.foldl (fun a c => a * 10 + (c.toNat - 48)) 0

/-- Python `int(s)`: optional surrounding whitespace, optional single sign,
one or more decimal digits; `none` when `int` would raise `ValueError`. -/
def pyInt? (s : String) : Option Int :=
  match (pyStrip s).data with
  | [] => none
  | '-' :: rest =>
    if rest ≠ [] ∧ rest.all Char.isDigit then some (-(digitsVal rest : Int)) else none
  | '+' :: rest =>
    if rest ≠ [] ∧ rest.all Char.isDigit then some (digitsVal rest) else none
  | cs => if cs.all Char.isDigit then some (digitsVal cs) else none

/-- Python `int(s)` as a fallible computation (`ValueError` on failure). -/
def pyIntE (s : String) : Except String Int :=
  match pyInt? s with
  | some n => .ok n
  | none => .error "ValueError: invalid literal for int()"

/-- True exactly on successful results. -/
def isOkE {α : Type} (e : Except String α) : Bool :=
  match e with
  | .ok _ => true
  | .error _ => false

/-! ### The normalized value universe and ordered dictionaries -/

/-- Result universe of `xml_to_dict`: a Python `str`, `dict` or `list`. -/
inductive NValue where
  | leaf : String → NValue
  | obj : List (String × NValue) → NValue
  | lst : List NValue → NValue

/-- Insertion-ordered dictionary with `NValue` values, as a CPython dict. -/
abbrev Dict := List (String × NValue)

/-- Dictionary lookup (`d[k]` / `k in d`); first binding wins, and
well-formed dicts have at most one binding per key. -/
def dictFind? (d : Dict) (k : String) : Option NValue :=
  match d with
  | [] => none
  | (k1, v) :: rest => if k1 = k then some v else dictFind? rest k

/-- Dictionary update `d[k] = v`: replace in place when the key exists (the
key keeps its position, as in CPython), otherwise append at the end. -/
def dictSet (d : Dict) (k : String) (v : NValue) : Dict :=
  match d with
  | [] => [(k, v)]
  | (k1, v1) :: rest => if k1 = k then (k, v) :: rest else (k1, v1) :: dictSet rest k v

/-! ### XML elements -/

mutual
/-- An `xml.etree.ElementTree.Element`: tag, attribute dict, ordered
children, optional text. -/
inductive RawNode : Type where
  | mk (tag : String) (attrib : List (String × String)) (children : RawForest)
      (text : Option String) : RawNode

/-- Ordered sequence of child elements (isomorphic to `List RawNode`; kept
mutual with `RawNode` so `xml_to_dict` is structurally recursive). -/
inductive RawForest : Type where
  | nil : RawForest
  | cons (head : RawNode) (tail : RawForest) : RawForest
end

def RawNode.tag : RawNode → String
  | .mk t _ _ _ => t

def RawNode.attrib : RawNode → List (String × String)
  | .mk _ a _ _ => a

def RawNode.children : RawNode → RawForest
  | .mk _ _ c _ => c

def RawNode.text : RawNode → Option String
  | .mk _ _ _ x => x

def RawForest.toList : RawForest → List RawNode
  | .nil => []
  | .cons c cs => c :: RawForest.toList cs

/-! ### The tree normalizer `xml_to_dict` (format_reports.py lines 5-33) -/

/-- Seeding of the result dict with the element's attributes:
`result.update(element.attrib)`. Attribute values are strings. -/
def attribDict (attrs : List (String × String)) : Dict :=
  attrs.map (fun p => (p.1, NValue.leaf p.2))

/-- One loop iteration of `xml_to_dict`'s child loop: the tag-collision
handling of lines 17-24 of format_reports.py. -/
def insertChild (res : Dict) (tag : String) (v : NValue) : Dict :=
  match dictFind? res tag with
  | some old =>
    match old with
    | NValue.lst xs => dictSet res tag (NValue.lst (xs ++ [v]))
    | _ => dictSet res tag (NValue.lst [old, v])
  | none => dictSet res tag v

mutual
/-- `xml_to_dict(element)` of format_reports.py: attributes, then children in
document order with list-collapsing on tag collision, then text handling
(blank text discarded; text-only node degenerates to a string; otherwise the
trimmed text is stored under the key "text"). -/
def xml_to_dict : RawNode → NValue
  | .mk _ attrs cs txt =>
    let result := processChildren cs (attribDict attrs)
    match txt with
    | some t =>
      if pyStrip t = "" then NValue.obj result
      else if result.isEmpty then NValue.leaf (pyStrip t)
      else NValue.obj (dictSet result "text" (NValue.leaf (pyStrip t)))
    | none => NValue.obj result

/-- The child loop `for child in element: ...` of `xml_to_dict`. -/
def processChildren : RawForest → Dict → Dict
  | .nil, res => res
  | .cons c rest, res => processChildren rest (insertChild res c.tag (xml_to_dict c))
end

/-- The dict built from attributes and children, before text handling. -/
def nodeDict (el : RawNode) : Dict :=
  processChildren el.children (attribDict el.attrib)

/-- Lookup of a key in a normalized value (for an `obj`; nothing else has
keys). -/
def valueAt (v : NValue) (k : String) : Option NValue :=
  match v with
  | NValue.obj m => dictFind? m k
  | _ => none

/-- Key list of a normalized object. -/
def objKeys : NValue → List String
  | NValue.obj m => m.map Prod.fst
  | _ => []

/-- Truth of Python `element.text and element.text.strip()` being falsy:
text absent, empty, or whitespace-only. -/
def textIsBlank : Option String → Bool
  | none => true
  | some t => decide (pyStrip t = "")

/-! ### Payment-history parsing (format_reports.py lines 35-55) -/

/-- One parsed `(date, status)` entry of the combined payment history. -/
structure PaymentRecord where
  date : String
  status : String
deriving DecidableEq

/-- The `date, status = entry.split(",")` unpacking: succeeds only when the
entry splits into exactly two comma-separated fields. -/
def parseEntry? (entry : String) : Option PaymentRecord :=
  match pySplit ',' entry with
  | [d, s] => some ⟨d, s⟩
  | _ => none

/-- The entry loop of `parse_payment_history`: blank segments are skipped,
segments that fail the two-field unpacking are silently dropped
(`except ValueError: continue`). -/
def phLoop : List String → List PaymentRecord
  | [] => []
  | e :: rest =>
    if pyStrip e = "" then phLoop rest
    else
      match parseEntry? e with
      | some r => r :: phLoop rest
      | none => phLoop rest

/-- `parse_payment_history(history_str)` of format_reports.py. -/
def parse_payment_history (history_str : String) : List PaymentRecord :=
  if history_str = "" then [] else phLoop (pySplit '|' history_str)

/-! ### DPD status-code decoding (analyze_dpd.py / analyze_max_dpd_months.py
lines 5-23) -/

/-- The symbolic-code table `dpd_mapping` of `parse_dpd_code` (values are the
strings of the source; they are fed to `int`). -/
def dpd_mapping : List (String × String) :=
  [("XXX", "000"), ("STD", "000"), ("SUB", "091"), ("DBT", "151"),
   ("LSS", "181"), ("SMA", "061"), ("DDD", "000")]

/-- `parse_dpd_code(status)`: `dpd, code = status.split('/')` (ValueError
unless exactly two fields), then the symbolic mapping or `int(dpd)`. -/
def parse_dpd_code (status : String) : Except String Int :=
  match pySplit '/' status with
  | [dpd, _code] =>
    match List.lookup dpd dpd_mapping with
    | some v => pyIntE v
    | none => pyIntE dpd
  | _ => .error "ValueError: cannot unpack status.split into dpd, code"

/-! ### The projector `analyze_credit_report` (format_reports.py lines 57-117) -/

/-- Python `v.get(k, default)`: works on dicts, raises `AttributeError`
on strings and lists. -/
def pyGetD (v : NValue) (k : String) (default : NValue) : Except String NValue :=
  match v with
  | NValue.obj m => .ok ((dictFind? m k).getD default)
  | _ => .error "AttributeError: object has no attribute get"

/-- Python `v.get(k)` (default `None`). -/
def pyGet? (v : NValue) (k : String) : Except String (Option NValue) :=
  match v with
  | NValue.obj m => .ok (dictFind? m k)
  | _ => .error "AttributeError: object has no attribute get"

/-- `parse_payment_history` applied to whatever value sits under
COMBINED-PAYMENT-HISTORY: a string is parsed; a falsy non-string (empty dict
or list) returns `[]` through the `if not history_str` guard; a truthy
non-string raises `AttributeError` at `history_str.split("|")`. -/
def paymentHistoryOf (v : NValue) : Except String (List PaymentRecord) :=
  match v with
  | NValue.leaf s => .ok (parse_payment_history s)
  | NValue.obj [] => .ok []
  | NValue.lst [] => .ok []
  | _ => .error "AttributeError: object has no attribute split"

/-- One formatted loan: the record built by `format_loan_details`.
Scalar fields hold whatever normalized value sat at the source key
(`None` when absent). -/
structure Loan where
  account_type : Option NValue
  status : Option NValue
  amount : Option NValue
  current_balance : Option NValue
  disbursed_date : Option NValue
  closed_date : Option NValue
  security_status : Option NValue
  payment_history : List PaymentRecord

/-- `format_loan_details(loan)` of format_reports.py. -/
def format_loan_details (loan : NValue) : Except String Loan := do
  let loan_details ← pyGetD loan "LOAN-DETAILS" (NValue.obj [])
  let account_type ← pyGet? loan_details "ACCT-TYPE"
  let status ← pyGet? loan_details "ACCOUNT-STATUS"
  let amount ← pyGet? loan_details "DISBURSED-AMT"
  let current_balance ← pyGet? loan_details "CURRENT-BAL"
  let disbursed_date ← pyGet? loan_details "DISBURSED-DATE"
  let closed_date ← pyGet? loan_details "CLOSED-DATE"
  let security_status ← pyGet? loan_details "SECURITY-STATUS"
  let phv ← pyGetD loan_details "COMBINED-PAYMENT-HISTORY" (NValue.leaf "")
  let payment_history ← paymentHistoryOf phv
  pure { account_type := account_type, status := status, amount := amount,
         current_balance := current_balance, disbursed_date := disbursed_date,
         closed_date := closed_date, security_status := security_status,
         payment_history := payment_history }

/-- The credit_score sub-record of the analysis document. -/
structure CreditScore where
  value : Option NValue
  score_type : Option NValue
  comments : Option NValue

/-- The summary sub-record of the analysis document. -/
structure ReportSummary where
  total_accounts : Option NValue
  active_accounts : Option NValue
  overdue_accounts : Option NValue
  total_balance : Option NValue
  credit_history_years : Option NValue
  recent_inquiries : Option NValue

/-- The analysis document produced by `analyze_credit_report` and consumed by
the downstream analyses. -/
structure AnalysisDocument where
  report_date : Option NValue
  credit_score : CreditScore
  summary : ReportSummary
  loans : List Loan

/-- The single-vs-list normalization of the RESPONSE container:
`if not isinstance(responses, list): responses = [responses]`. -/
def responsesOf (responses : NValue) : List NValue :=
  match responses with
  | NValue.lst xs => xs
  | v => [v]

/-- The `for response in responses` loop appending `format_loan_details` of
each response (an exception from any response propagates). -/
def loansLoop : List NValue → Except String (List Loan)
  | [] => .ok []
  | r :: rest =>
    match format_loan_details r with
    | .error e => .error e
    | .ok l =>
      match loansLoop rest with
      | .error e => .error e
      | .ok ls => .ok (l :: ls)

/-- `analyze_credit_report(xml_data)` of format_reports.py: normalize the
tree, then extract the fixed paths with defaulting `.get` calls. -/
def analyze_credit_report (xml_data : RawNode) : Except String AnalysisDocument := do
  let data := xml_to_dict xml_data
  let indv ← pyGetD data "INDV-REPORTS" (NValue.obj [])
  let report ← pyGetD indv "INDV-REPORT" (NValue.obj [])
  let header ← pyGetD report "HEADER" (NValue.obj [])
  let scores ← pyGetD report "SCORES" (NValue.obj [])
  let score ← pyGetD scores "SCORE" (NValue.obj [])
  let accounts ← pyGetD report "ACCOUNTS-SUMMARY" (NValue.obj [])
  let derived ← pyGetD accounts "DERIVED-ATTRIBUTES" (NValue.obj [])
  let primary ← pyGetD accounts "PRIMARY-ACCOUNTS-SUMMARY" (NValue.obj [])
  let report_date ← pyGet? header "DATE-OF-ISSUE"
  let score_value ← pyGet? score "SCORE-VALUE"
  let score_type ← pyGet? score "SCORE-TYPE"
  let score_comments ← pyGet? score "SCORE-COMMENTS"
  let total_accounts ← pyGet? primary "PRIMARY-NUMBER-OF-ACCOUNTS"
  let active_accounts ← pyGet? primary "PRIMARY-ACTIVE-NUMBER-OF-ACCOUNTS"
  let overdue_accounts ← pyGet? primary "PRIMARY-OVERDUE-NUMBER-OF-ACCOUNTS"
  let total_balance ← pyGet? primary "PRIMARY-CURRENT-BALANCE"
  let credit_history_years ← pyGet? derived "LENGTH-OF-CREDIT-HISTORY-YEAR"
  let recent_inquiries ← pyGet? derived "INQUIRIES-IN-LAST-SIX-MONTHS"
  let responsesContainer ← pyGetD report "RESPONSES" (NValue.obj [])
  let response ← pyGetD responsesContainer "RESPONSE" (NValue.lst [])
  let loans ← loansLoop (responsesOf response)
  pure { report_date := report_date,
         credit_score := { value := score_value, score_type := score_type,
                           comments := score_comments },
         summary := { total_accounts := total_accounts,
                      active_accounts := active_accounts,
                      overdue_accounts := overdue_accounts,
                      total_balance := total_balance,
                      credit_history_years := credit_history_years,
                      recent_inquiries := recent_inquiries },
         loans := loans }

/-! ### The DPD analysis (analyze_dpd.py lines 25-59) and the per-file
error handling of main.py run_analysis (lines 58-81) -/

/-- One 30-plus-DPD month recorded by `has_30plus_dpd`. -/
structure DpdMonth where
  date : String
  dpd : Int
deriving DecidableEq

/-- The payment loop of `has_30plus_dpd`: decode every status (a decode
failure raises out of the whole loop) and keep the months with DPD >= 30. -/
def dpdMonthsLoop : List PaymentRecord → Except String (List DpdMonth)
  | [] => .ok []
  | p :: rest =>
    match parse_dpd_code p.status with
    | .error e => .error e
    | .ok dpd =>
      match dpdMonthsLoop rest with
      | .error e => .error e
      | .ok tail => if dpd ≥ 30 then .ok (⟨p.date, dpd⟩ :: tail) else .ok tail

/-- `has_30plus_dpd(loan)` of analyze_dpd.py: the list of payments with
decoded DPD of 30 or more. -/
def has_30plus_dpd (loan : Loan) : Except String (List DpdMonth) :=
  dpdMonthsLoop loan.payment_history

/-- One entry of the `loan_details` list built by `analyze_customer_dpd`
(`loan_type` is the source's 'type' key). -/
structure DpdLoanDetail where
  loan_type : Option NValue
  status : Option NValue
  dpd_months : List DpdMonth
  has_30plus_dpd : Bool

/-- The statistics record returned by `analyze_customer_dpd`. -/
structure DpdStats where
  total_trades : Nat
  trades_with_30plus_dpd : Nat
  percentage : ℚ
  loan_details : List DpdLoanDetail

/-- The loan loop of `analyze_customer_dpd` (`for loan in data['loans']`). -/
def loanDetailsLoop : List Loan → Except String (List DpdLoanDetail)
  | [] => .ok []
  | loan :: rest =>
    match has_30plus_dpd loan with
    | .error e => .error e
    | .ok dpd_months =>
      match loanDetailsLoop rest with
      | .error e => .error e
      | .ok tail =>
        .ok ({ loan_type := loan.account_type, status := loan.status,
               dpd_months := dpd_months,
               has_30plus_dpd := decide (dpd_months.length > 0) } :: tail)

/-- Python `round(x, 2)` modeled over exact rationals. -/
def round2 (q : ℚ) : ℚ := (round (q * 100) : ℤ) / 100

/-- `analyze_customer_dpd(data)` of analyze_dpd.py. The division computing
the percentage is guarded by `if total_trades > 0 else 0`. -/
def analyze_customer_dpd (data : AnalysisDocument) : Except String DpdStats :=
  let total_trades := data.loans.length
  match loanDetailsLoop data.loans with
  | .error e => .error e
  | .ok loan_details =>
    let trades_with_30plus_dpd := (loan_details.filter (fun l => l.has_30plus_dpd)).length
    let percentage : ℚ :=
      if total_trades > 0 then (trades_with_30plus_dpd : ℚ) / (total_trades : ℚ) * 100 else 0
    .ok { total_trades := total_trades,
          trades_with_30plus_dpd := trades_with_30plus_dpd,
          percentage := round2 percentage,
          loan_details := loan_details }

/-- The per-report loop of `run_analysis` in main.py for the DPD analysis:
each report is analyzed inside its own `try` block; on any exception the
error is logged and the loop continues with the next report, so only the
successful stats are collected (file IO and customer-id bookkeeping, which
do not influence the claims, are omitted). -/
def run_analysis_dpd : List AnalysisDocument → List DpdStats
  | [] => []
  | d :: rest =>
    match analyze_customer_dpd d with
    | .ok stats => stats :: run_analysis_dpd rest
    | .error _ => run_analysis_dpd rest

/-! ### Specification-side helper definitions (proof vehicles, not source
translations) -/

/-- Effect of one collision-handling insertion (`insertChild`) on the value
previously stored under the inserted tag. -/
def insertTagged (cur : Option NValue) (v : NValue) : NValue :=
  match cur with
  | none => v
  | some (NValue.lst xs) => NValue.lst (xs ++ [v])
  | some old => NValue.lst [old, v]

/-- Iterated `insertTagged` over the document-ordered values of one tag. -/
def foldTag (cur : Option NValue) (vs : List NValue) : Option NValue :=
  match vs with
  | [] => cur
  | v :: rest => foldTag (some (insertTagged cur v)) rest

/-- `processChildren` transported to ordinary lists (bridge for induction;
equal to `processChildren` on `RawForest.toList`, proved below). -/
def processList (cs : List RawNode) (res : Dict) : Dict :=
  match cs with
  | [] => res
  | c :: rest => processList rest (insertChild res c.tag (xml_to_dict c))

/-- The month entry `has_30plus_dpd` keeps for one payment, if any: the
decoded DPD when decoding succeeds and the value is at least 30. -/
def dpdEntry? (p : PaymentRecord) : Option DpdMonth :=
  match parse_dpd_code p.status with
  | .ok dpd => if dpd ≥ 30 then some ⟨p.date, dpd⟩ else none
  | .error _ => none

/-- The `loan_details` entry `analyze_customer_dpd` builds for one loan when
every status of the loan decodes. -/
def loanDetailOf (loan : Loan) : DpdLoanDetail :=
  { loan_type := loan.account_type, status := loan.status,
    dpd_months := loan.payment_history.filterMap dpdEntry?,
    has_30plus_dpd := decide (0 < (loan.payment_history.filterMap dpdEntry?).length) }

/-- The all-defaults analysis document: what `analyze_credit_report` returns
when every path lookup falls back to its default. -/
def emptyAnalysisDocument : AnalysisDocument :=
  { report_date := none,
    credit_score := { value := none, score_type := none, comments := none },
    summary := { total_accounts := none, active_accounts := none,
                 overdue_accounts := none, total_balance := none,
                 credit_history_years := none, recent_inquiries := none },
    loans := [] }

/-- An analysis document with the given loans and no other data (concrete
test vehicle). -/
def mkDoc (ls : List Loan) : AnalysisDocument :=
  { report_date := none,
    credit_score := { value := none, score_type := none, comments := none },
    summary := { total_accounts := none, active_accounts := none,
                 overdue_accounts := none, total_balance := none,
                 credit_history_years := none, recent_inquiries := none },
    loans := ls }

/-- A loan whose payment statuses all decode (one of them 30-plus). -/
def goodLoanEx : Loan :=
  { account_type := none, status := none, amount := none, current_balance := none,
    disbursed_date := none, closed_date := none, security_status := none,
    payment_history := [⟨"01-2020", "XXX/01"⟩, ⟨"02-2020", "091/02"⟩] }

/-- A loan with one well-formed payment status and one malformed one. -/
def badLoanEx : Loan :=
  { account_type := none, status := none, amount := none, current_balance := none,
    disbursed_date := none, closed_date := none, security_status := none,
    payment_history := [⟨"01-2020", "XXX/01"⟩, ⟨"02-2020", "nodelimiter"⟩] }

/-- A concrete LOAN-DETAILS element. -/
def loanDetailsNodeEx : RawNode :=
  .mk "LOAN-DETAILS"
    [("ACCT-TYPE", "PL"), ("COMBINED-PAYMENT-HISTORY", "01-2020,XXX/01")]
    .nil none

/-- A concrete RESPONSE element holding one loan. -/
def responseNodeEx : RawNode :=
  .mk "RESPONSE" [] (.cons loanDetailsNodeEx .nil) none

/-- A report tree whose RESPONSES container holds a single RESPONSE child
(no tag collision, so it normalizes to a single object). -/
def reportTreeSingle : RawNode :=
  .mk "REPORT-FILE" []
    (.cons (.mk "INDV-REPORTS" []
      (.cons (.mk "INDV-REPORT" []
        (.cons (.mk "RESPONSES" [] (.cons responseNodeEx .nil) none)
          .nil) none) .nil) none) .nil) none

/-- The same report tree with two RESPONSE children (tag collision, so the
container normalizes to a list). -/
def reportTreeDouble : RawNode :=
  .mk "REPORT-FILE" []
    (.cons (.mk "INDV-REPORTS" []
      (.cons (.mk "INDV-REPORT" []
        (.cons (.mk "RESPONSES" []
            (.cons responseNodeEx (.cons responseNodeEx .nil)) none)
          .nil) none) .nil) none) .nil) none

/-- The loan `format_loan_details` extracts from `responseNodeEx`. -/
def loanEx : Loan :=
  { account_type := some (NValue.leaf "PL"), status := none, amount := none,
    current_balance := none, disbursed_date := none, closed_date := none,
    security_status := none, payment_history := [⟨"01-2020", "XXX/01"⟩] }

/-- A partially-present report tree: a HEADER with a DATE-OF-ISSUE attribute
and one RESPONSE are present, while SCORES, ACCOUNTS-SUMMARY and every other
optional field are absent. -/
def partialReportTree : RawNode :=
  .mk "REPORT-FILE" []
    (.cons (.mk "INDV-REPORTS" []
      (.cons (.mk "INDV-REPORT" []
        (.cons (.mk "HEADER" [("DATE-OF-ISSUE", "01-01-2024")] .nil none)
          (.cons (.mk "RESPONSES" [] (.cons responseNodeEx .nil) none) .nil)) none)
        .nil) none) .nil) none

/-! ### Dictionary lemmas -/

theorem dictFind?_dictSet (d : Dict) (k t : String) (v : NValue) :
    dictFind? (dictSet d k v) t = if k = t then some v else dictFind? d t := by
  induction d with
  | nil => by_cases h : k = t <;> simp [dictSet, dictFind?, h]
  | cons p rest ih =>
    obtain ⟨k1, v1⟩ := p
    by_cases h1 : k1 = k
    · subst h1
      by_cases h2 : k1 = t <;> simp [dictSet, dictFind?, h2]
    · by_cases h2 : k1 = t
      · subst h2
        have hk : ¬ k = k1 := fun hh => h1 hh.symm
        simp [dictSet, dictFind?, h1, hk, ih]
      · simp [dictSet, dictFind?, h1, h2, ih]

theorem dictSet_ne_nil (d : Dict) (k : String) (v : NValue) : dictSet d k v ≠ [] := by
  cases d with
  | nil => simp [dictSet]
  | cons p rest =>
    obtain ⟨k1, v1⟩ := p
    by_cases h : k1 = k <;> simp [dictSet, h]

theorem dictSet_append (d : Dict) (k : String) (v : NValue) (h : dictFind? d k = none) :
    dictSet d k v = d ++ [(k, v)] := by
  induction d with
  | nil => simp [dictSet]
  | cons p rest ih =>
    obtain ⟨k1, v1⟩ := p
    by_cases h1 : k1 = k
    · simp [dictFind?, h1] at h
    · simp only [dictFind?, h1, if_false] at h
      simp [dictSet, h1, ih h]

theorem dictFind?_append (d1 d2 : Dict) (t : String) (h : dictFind? d1 t = none) :
    dictFind? (d1 ++ d2) t = dictFind? d2 t := by
  induction d1 with
  | nil => simp
  | cons p rest ih =>
    obtain ⟨k1, v1⟩ := p
    by_cases h1 : k1 = t
    · simp [dictFind?, h1] at h
    · simp only [dictFind?, h1, if_false] at h
      simp only [List.cons_append, dictFind?, h1, if_false]
      exact ih h

theorem dictFind?_ne_nil (d : Dict) (t : String) (w : NValue)
    (h : dictFind? d t = some w) : d ≠ [] := by
  intro hd
  rw [hd] at h
  simp [dictFind?] at h

theorem attribDict_find_none (attrs : List (String × String)) (t : String)
    (h : ∀ p ∈ attrs, p.1 ≠ t) : dictFind? (attribDict attrs) t = none := by
  induction attrs with
  | nil => rfl
  | cons p rest ih =>
    have hp : p.1 ≠ t := h p (by simp)
    simp only [attribDict, List.map_cons, dictFind?, hp, if_false]
    exact ih (fun q hq => h q (by simp [hq]))

/-! ### Collision-fold lemmas -/

theorem insertChild_eq (res : Dict) (k : String) (v : NValue) :
    insertChild res k v = dictSet res k (insertTagged (dictFind? res k) v) := by
  cases h : dictFind? res k with
  | none => simp [insertChild, insertTagged, h]
  | some old => cases old <;> simp [insertChild, insertTagged, h]

theorem processChildren_eq_processList (cs : RawForest) (res : Dict) :
    processChildren cs res = processList cs.toList res :=
  match cs with
  | .nil => rfl
  | .cons c rest => by
    simp only [processChildren, RawForest.toList, processList]
    exact processChildren_eq_processList rest _

theorem nodeDict_eq (el : RawNode) :
    nodeDict el = processList el.children.toList (attribDict el.attrib) :=
  processChildren_eq_processList _ _

theorem processList_find (cs : List RawNode) (res : Dict) (t : String) :
    dictFind? (processList cs res) t
      = foldTag (dictFind? res t) ((cs.filter (fun c => c.tag = t)).map xml_to_dict) := by
  induction cs generalizing res with
  | nil => rfl
  | cons c rest ih =>
    simp only [processList]
    rw [ih, insertChild_eq, dictFind?_dictSet]
    by_cases h : c.tag = t
    · simp [h, List.filter_cons, foldTag]
    · simp [h, List.filter_cons]

theorem foldTag_lst (xs rest : List NValue) :
    foldTag (some (NValue.lst xs)) rest = some (NValue.lst (xs ++ rest)) := by
  induction rest generalizing xs with
  | nil => simp [foldTag]
  | cons v r ih =>
    simp only [foldTag, insertTagged]
    rw [ih]
    simp

theorem foldTag_cons_of_ne_lst (w : NValue) (hw : ∀ ys, w ≠ NValue.lst ys)
    (v : NValue) (rest : List NValue) :
    foldTag (some w) (v :: rest) = some (NValue.lst (w :: v :: rest)) := by
  have hins : insertTagged (some w) v = NValue.lst [w, v] := by
    cases w with
    | lst ys => exact absurd rfl (hw ys)
    | leaf s => rfl
    | obj m => rfl
  simp only [foldTag, hins, foldTag_lst]
  simp

theorem xml_to_dict_ne_lst : ∀ (el : RawNode) (ys : List NValue),
    xml_to_dict el ≠ NValue.lst ys
  | .mk tg a cs none, ys => by simp [xml_to_dict]
  | .mk tg a cs (some s), ys => by
    simp only [xml_to_dict]
    split
    · simp
    · split <;> simp

theorem processList_ne_nil (cs : List RawNode) (res : Dict) (h : res ≠ []) :
    processList cs res ≠ [] := by
  induction cs generalizing res with
  | nil => exact h
  | cons c rest ih =>
    simp only [processList]
    exact ih _ (by rw [insertChild_eq]; exact dictSet_ne_nil _ _ _)

theorem processList_cons_ne_nil (c : RawNode) (cs : List RawNode) (res : Dict) :
    processList (c :: cs) res ≠ [] := by
  simp only [processList]
  exact processList_ne_nil _ _ (by rw [insertChild_eq]; exact dictSet_ne_nil _ _ _)

theorem nodeDict_ne_nil : ∀ (el : RawNode),
    el.attrib ≠ [] ∨ el.children ≠ RawForest.nil → nodeDict el ≠ []
  | .mk tg a cs x, h => by
    rw [nodeDict_eq]
    rcases h with h | h
    · apply processList_ne_nil
      cases a with
      | nil => exact absurd rfl h
      | cons p ps => simp [attribDict, RawNode.attrib]
    · cases cs with
      | nil => exact absurd rfl h
      | cons c rest => exact processList_cons_ne_nil _ _ _

theorem valueAt_xml_to_dict : ∀ (el : RawNode) (t : String) (w : NValue),
    (t = "text" → textIsBlank el.text = true) →
    dictFind? (nodeDict el) t = some w →
    valueAt (xml_to_dict el) t = some w
  | .mk tg a cs x, t, w, hguard, hfind => by
    have hnd : nodeDict (RawNode.mk tg a cs x) = processChildren cs (attribDict a) := rfl
    rw [hnd] at hfind
    cases x with
    | none => simpa [xml_to_dict, valueAt] using hfind
    | some s =>
      by_cases hb : pyStrip s = ""
      · simpa [xml_to_dict, hb, valueAt] using hfind
      · have ht : ¬ ("text" = t) := by
          intro h
          have := hguard h.symm
          simp [textIsBlank, RawNode.text, hb] at this
        have hne : processChildren cs (attribDict a) ≠ [] :=
          dictFind?_ne_nil _ _ _ hfind
        have hemp : (processChildren cs (attribDict a)).isEmpty = false := by
          cases hl : processChildren cs (attribDict a) with
          | nil => exact absurd hl hne
          | cons q qs => simp [List.isEmpty]
        simp only [xml_to_dict, hb, if_false, hemp, Bool.false_eq_true, valueAt]
        rw [dictFind?_dictSet]
        simpa [ht] using hfind

theorem processList_fresh (cs : List RawNode) (res : Dict)
    (hnodup : (cs.map RawNode.tag).Nodup)
    (hfresh : ∀ c ∈ cs, dictFind? res c.tag = none) :
    processList cs res = res ++ cs.map (fun c => (c.tag, xml_to_dict c)) := by
  induction cs generalizing res with
  | nil => simp [processList]
  | cons c rest ih =>
    have hmap : (c.tag :: List.map RawNode.tag rest).Nodup := by
      simpa using hnodup
    obtain ⟨hhead, htail⟩ := List.nodup_cons.mp hmap
    have hc : dictFind? res c.tag = none := hfresh c (by simp)
    have hstep : insertChild res c.tag (xml_to_dict c) = res ++ [(c.tag, xml_to_dict c)] := by
      rw [insertChild_eq, hc]
      exact dictSet_append _ _ _ hc
    have hfresh2 : ∀ c2 ∈ rest, dictFind? (res ++ [(c.tag, xml_to_dict c)]) c2.tag = none := by
      intro c2 hc2
      have hne : ¬ (c.tag = c2.tag) := by
        intro h
        exact hhead (by rw [h]; exact List.mem_map_of_mem RawNode.tag hc2)
      rw [dictFind?_append _ _ _ (hfresh c2 (by simp [hc2]))]
      simp [dictFind?, hne]
    simp only [processList, hstep]
    rw [ih _ htail hfresh2]
    simp

/-! ### Analysis-loop lemmas -/

theorem dpdMonthsLoop_ok (ps : List PaymentRecord)
    (h : ∀ p ∈ ps, isOkE (parse_dpd_code p.status) = true) :
    dpdMonthsLoop ps = .ok (ps.filterMap dpdEntry?) := by
  induction ps with
  | nil => rfl
  | cons p rest ih =>
    have hp := h p (by simp)
    cases hc : parse_dpd_code p.status with
    | error e => simp [isOkE, hc] at hp
    | ok dpd =>
      have htail := ih (fun q hq => h q (by simp [hq]))
      simp only [dpdMonthsLoop, hc, htail, List.filterMap_cons, dpdEntry?]
      by_cases h30 : dpd ≥ 30 <;> simp [h30]

theorem dpdMonthsLoop_error (ps : List PaymentRecord)
    (h : ∃ p ∈ ps, isOkE (parse_dpd_code p.status) = false) :
    isOkE (dpdMonthsLoop ps) = false := by
  induction ps with
  | nil => simp at h
  | cons p rest ih =>
    obtain ⟨q, hq, hbad⟩ := h
    simp only [List.mem_cons] at hq
    cases hc : parse_dpd_code p.status with
    | error e => simp [dpdMonthsLoop, hc, isOkE]
    | ok dpd =>
      rcases hq with rfl | hq
      · rw [hc] at hbad
        simp [isOkE] at hbad
      · have hr := ih ⟨q, hq, hbad⟩
        cases ht : dpdMonthsLoop rest with
        | error e => simp [dpdMonthsLoop, hc, ht, isOkE]
        | ok tail =>
          rw [ht] at hr
          simp [isOkE] at hr

theorem loanDetailsLoop_ok (ls : List Loan)
    (h : ∀ loan ∈ ls, ∀ p ∈ loan.payment_history, isOkE (parse_dpd_code p.status) = true) :
    loanDetailsLoop ls = .ok (ls.map loanDetailOf) := by
  induction ls with
  | nil => rfl
  | cons loan rest ih =>
    have h1 : has_30plus_dpd loan = .ok (loan.payment_history.filterMap dpdEntry?) :=
      dpdMonthsLoop_ok loan.payment_history (h loan (by simp))
    have h2 := ih (fun l hl => h l (by simp [hl]))
    simp [loanDetailsLoop, h1, h2, loanDetailOf]

theorem loanDetailsLoop_error (ls : List Loan)
    (h : ∃ loan ∈ ls, ∃ p ∈ loan.payment_history, isOkE (parse_dpd_code p.status) = false) :
    isOkE (loanDetailsLoop ls) = false := by
  induction ls with
  | nil => simp at h
  | cons loan rest ih =>
    obtain ⟨l, hl, hbad⟩ := h
    simp only [List.mem_cons] at hl
    rcases hl with rfl | hl
    · have hm : isOkE (has_30plus_dpd l) = false := dpdMonthsLoop_error _ hbad
      cases hc : has_30plus_dpd l with
      | error e => simp [loanDetailsLoop, hc, isOkE]
      | ok months =>
        rw [hc] at hm
        simp [isOkE] at hm
    · have hr := ih ⟨l, hl, hbad⟩
      cases hc : has_30plus_dpd loan with
      | error e => simp [loanDetailsLoop, hc, isOkE]
      | ok months =>
        cases ht : loanDetailsLoop rest with
        | error e => simp [loanDetailsLoop, hc, ht, isOkE]
        | ok tail =>
          rw [ht] at hr
          simp [isOkE] at hr

theorem analyze_customer_dpd_error (doc : AnalysisDocument)
    (h : ∃ loan ∈ doc.loans, ∃ p ∈ loan.payment_history,
          isOkE (parse_dpd_code p.status) = false) :
    isOkE (analyze_customer_dpd doc) = false := by
  have hl := loanDetailsLoop_error doc.loans h
  cases hc : loanDetailsLoop doc.loans with
  | error e => simp [analyze_customer_dpd, hc, isOkE]
  | ok details =>
    rw [hc] at hl
    simp [isOkE] at hl

theorem dpdEntry?_isSome (p : PaymentRecord) :
    (dpdEntry? p).isSome = true ↔ ∃ n, parse_dpd_code p.status = .ok n ∧ 30 ≤ n := by
  cases hc : parse_dpd_code p.status with
  | error e => simp [dpdEntry?, hc]
  | ok dpd =>
    by_cases h30 : dpd ≥ 30 <;> simp [dpdEntry?, hc, h30]

theorem filterMap_length_pos_iff {α β : Type} (f : α → Option β) (l : List α) :
    0 < (l.filterMap f).length ↔ ∃ a ∈ l, (f a).isSome = true := by
  induction l with
  | nil => simp
  | cons x rest ih =>
    cases hf : f x with
    | some b => simp [List.filterMap_cons, hf]
    | none => simp [List.filterMap_cons, hf, ih]

theorem forall2_map_self {α β : Type} (R : β → α → Prop) (f : α → β) (l : List α)
    (h : ∀ x ∈ l, R (f x) x) : List.Forall₂ R (l.map f) l := by
  induction l with
  | nil => simp
  | cons x rest ih =>
    exact List.Forall₂.cons (h x (by simp)) (ih (fun y hy => h y (by simp [hy])))

theorem round2_zero : round2 0 = 0 := by
  simp [round2]

theorem round2_bounds (q : ℚ) (h0 : 0 ≤ q) (h1 : q ≤ 100) :
    0 ≤ round2 q ∧ round2 q ≤ 100 := by
  unfold round2
  have hl : (0 : ℤ) ≤ round (q * 100) := by
    rw [round_eq, Int.le_floor]
    push_cast
    linarith
  have hu : round (q * 100) ≤ 10000 := by
    have h := round_le_add_half (q * 100)
    by_contra hc
    push_neg at hc
    have : (10001 : ℚ) ≤ (round (q * 100) : ℤ) := by exact_mod_cast hc
    linarith
  constructor
  · positivity
  · rw [div_le_iff₀ (by norm_num : (0 : ℚ) < 100)]
    calc ((round (q * 100) : ℤ) : ℚ) ≤ 10000 := by exact_mod_cast hu
      _ = 100 * 100 := by norm_num

theorem xml_to_dict_blank : ∀ (el : RawNode), textIsBlank el.text = true →
    xml_to_dict el = NValue.obj (nodeDict el)
  | .mk tg a cs none, _ => by
    simp [xml_to_dict, nodeDict, RawNode.children, RawNode.attrib]
  | .mk tg a cs (some s), h => by
    have hb : pyStrip s = "" := by
      simpa [textIsBlank, RawNode.text] using h
    simp [xml_to_dict, hb, nodeDict, RawNode.children, RawNode.attrib]

theorem run_analysis_dpd_skip (pre : List AnalysisDocument) (bad : AnalysisDocument)
    (post : List AnalysisDocument) (h : isOkE (analyze_customer_dpd bad) = false) :
    run_analysis_dpd (pre ++ bad :: post) = run_analysis_dpd (pre ++ post) := by
  induction pre with
  | nil =>
    cases hb : analyze_customer_dpd bad with
    | ok s =>
      rw [hb] at h
      simp [isOkE] at h
    | error e => simp [run_analysis_dpd, hb]
  | cons d rest ih =>
    cases hd : analyze_customer_dpd d <;> simp [run_analysis_dpd, hd, ih]

/-! ### Claims -/

/-- C1 (amended): for a node with two or more same-tagged children, provided
no attribute of the node shares that tag and the key "text" does not clash
(the tag is not "text", or the node's text is blank), `xml_to_dict` maps the
tag to an ordered list whose entries are exactly the normalized same-tagged
children in document order (so its length is the collision count); moreover
the first insertion of a tag stores the value directly and the second wraps
the existing non-list value into a list of two. The attribute proviso is
forced by `claim_C1_counterexample`: an attribute with the colliding name
joins the list, making it longer than the number of children. -/
theorem claim_C1 :
    (∀ (el : RawNode) (t : String),
      (∀ p ∈ el.attrib, p.1 ≠ t) →
      (t = "text" → textIsBlank el.text = true) →
      2 ≤ (el.children.toList.filter (fun c => c.tag = t)).length →
      valueAt (xml_to_dict el) t
        = some (NValue.lst
            ((el.children.toList.filter (fun c => c.tag = t)).map xml_to_dict)))
    ∧ (∀ (res : Dict) (t : String) (v : NValue), dictFind? res t = none →
        insertChild res t v = dictSet res t v)
    ∧ (∀ (res : Dict) (t : String) (old v : NValue), dictFind? res t = some old →
        (∀ xs, old ≠ NValue.lst xs) →
        insertChild res t v = dictSet res t (NValue.lst [old, v])) := by
  refine ⟨?_, ?_, ?_⟩
  · intro el t hattr hguard hlen
    apply valueAt_xml_to_dict el t _ hguard
    rw [nodeDict_eq, processList_find, attribDict_find_none el.attrib t hattr]
    obtain ⟨c1, c2, tail, hfl⟩ : ∃ c1 c2 tail,
        el.children.toList.filter (fun c => c.tag = t) = c1 :: c2 :: tail := by
      cases hl : el.children.toList.filter (fun c => c.tag = t) with
      | nil =>
        rw [hl] at hlen
        simp at hlen
      | cons d1 dtl =>
        cases hl2 : dtl with
        | nil =>
          rw [hl, hl2] at hlen
          simp at hlen
        | cons d2 dtl2 => exact ⟨d1, d2, dtl2, rfl⟩
    rw [hfl]
    simp only [List.map_cons, foldTag]
    have h2 : insertTagged (some (xml_to_dict c1)) (xml_to_dict c2)
        = NValue.lst [xml_to_dict c1, xml_to_dict c2] := by
      cases hx : xml_to_dict c1 with
      | lst ys => exact absurd hx (by intro hh; exact xml_to_dict_ne_lst c1 ys hh)
      | leaf s => rfl
      | obj m => rfl
    show foldTag (some (insertTagged (some (xml_to_dict c1)) (xml_to_dict c2)))
        (List.map xml_to_dict tail) = _
    rw [h2, foldTag_lst]
    simp
  · intro res t v h
    rw [insertChild_eq, h]
    rfl
  · intro res t old v h hold
    rw [insertChild_eq, h]
    congr 1
    cases old with
    | lst xs => exact absurd rfl (hold xs)
    | leaf s => rfl
    | obj m => rfl

/-- C1 counterexample: a node with attribute B="x" and two children tagged B
(so exactly two same-tagged children) normalizes B to a list of length 3,
not 2: the attribute value is part of the list. -/
theorem claim_C1_counterexample :
    valueAt (xml_to_dict (RawNode.mk "N" [("B", "x")]
        (RawForest.cons (RawNode.mk "B" [] RawForest.nil none)
          (RawForest.cons (RawNode.mk "B" [] RawForest.nil none) RawForest.nil)) none)) "B"
      = some (NValue.lst [NValue.leaf "x", NValue.obj [], NValue.obj []])
    ∧ ((RawNode.mk "N" [("B", "x")]
        (RawForest.cons (RawNode.mk "B" [] RawForest.nil none)
          (RawForest.cons (RawNode.mk "B" [] RawForest.nil none) RawForest.nil))
          none).children.toList.filter (fun c => c.tag = "B")).length = 2
    ∧ [NValue.leaf "x", NValue.obj [], NValue.obj []].length ≠ 2 :=
  ⟨rfl, rfl, by decide⟩

/-- C1 witness: two same-tagged children, no colliding attribute; the tag
maps to the two-element list of their normalizations, in order. -/
theorem claim_C1_witness :
    valueAt (xml_to_dict (RawNode.mk "N" []
        (RawForest.cons (RawNode.mk "B" [] RawForest.nil none)
          (RawForest.cons (RawNode.mk "B" [] RawForest.nil none) RawForest.nil)) none)) "B"
      = some (NValue.lst [NValue.obj [], NValue.obj []]) := by
  have h := claim_C1.1 (RawNode.mk "N" []
      (RawForest.cons (RawNode.mk "B" [] RawForest.nil none)
        (RawForest.cons (RawNode.mk "B" [] RawForest.nil none) RawForest.nil)) none) "B"
      (by intro p hp; cases hp) (fun hh => absurd hh (by decide)) (by decide)
  exact h

theorem valueAt_text_of_nonblank : ∀ (el : RawNode) (s : String),
    el.text = some s → pyStrip s ≠ "" → nodeDict el ≠ [] →
    valueAt (xml_to_dict el) "text" = some (NValue.leaf (pyStrip s))
  | .mk tg a cs x, s, hx, hstrip, hne => by
    have hx2 : x = some s := hx
    subst hx2
    have hnd : nodeDict (RawNode.mk tg a cs (some s))
        = processChildren cs (attribDict a) := rfl
    rw [hnd] at hne
    have hemp : (processChildren cs (attribDict a)).isEmpty = false := by
      cases hl : processChildren cs (attribDict a) with
      | nil => exact absurd hl hne
      | cons q qs => simp [List.isEmpty]
    simp only [xml_to_dict, hstrip, if_false, hemp, Bool.false_eq_true, valueAt]
    rw [dictFind?_dictSet]
    simp

/-- C2 (amended): when an attribute name collides with a child tag, the child
does not overwrite the attribute; the collision branch of `xml_to_dict`
wraps the attribute's string value into a list and appends the normalized
same-tagged children after it in document order, so the
attributes-and-children mapping sends the key to
`[attribute value, child values...]`, and that list is the final value at
the key — with a single exception: when the colliding name is "text" and the
node also has non-blank text, the final text-handling step overwrites the
list, leaving the trimmed text leaf under "text". -/
theorem claim_C2 : ∀ (el : RawNode) (t a : String),
    dictFind? (attribDict el.attrib) t = some (NValue.leaf a) →
    el.children.toList.filter (fun c => c.tag = t) ≠ [] →
    dictFind? (nodeDict el) t
      = some (NValue.lst (NValue.leaf a ::
          (el.children.toList.filter (fun c => c.tag = t)).map xml_to_dict))
    ∧ ((t = "text" → textIsBlank el.text = true) →
      valueAt (xml_to_dict el) t
        = some (NValue.lst (NValue.leaf a ::
            (el.children.toList.filter (fun c => c.tag = t)).map xml_to_dict)))
    ∧ (∀ s, t = "text" → el.text = some s → pyStrip s ≠ "" →
      valueAt (xml_to_dict el) "text" = some (NValue.leaf (pyStrip s))) := by
  intro el t a hattr hne
  have hdict : dictFind? (nodeDict el) t
      = some (NValue.lst (NValue.leaf a ::
          (el.children.toList.filter (fun c => c.tag = t)).map xml_to_dict)) := by
    rw [nodeDict_eq, processList_find, hattr]
    obtain ⟨c1, tail, hfl⟩ : ∃ c1 tail,
        el.children.toList.filter (fun c => c.tag = t) = c1 :: tail := by
      cases hl : el.children.toList.filter (fun c => c.tag = t) with
      | nil => exact absurd hl hne
      | cons d1 dtl => exact ⟨d1, dtl, rfl⟩
    rw [hfl]
    simp only [List.map_cons]
    exact foldTag_cons_of_ne_lst _ (fun ys h => NValue.noConfusion h) _ _
  refine ⟨hdict, ?_, ?_⟩
  · intro hguard
    exact valueAt_xml_to_dict el t _ hguard hdict
  · intro s ht hx hstrip
    exact valueAt_text_of_nonblank el s hx hstrip (dictFind?_ne_nil _ _ _ hdict)

/-- C2 counterexample: attribute B="x" and one child tagged B; the claim says
the result at B is the child's normalized value (the empty object), but the
code produces the list [leaf "x", empty object]. -/
theorem claim_C2_counterexample :
    valueAt (xml_to_dict (RawNode.mk "N" [("B", "x")]
        (RawForest.cons (RawNode.mk "B" [] RawForest.nil none) RawForest.nil) none)) "B"
      = some (NValue.lst [NValue.leaf "x", NValue.obj []])
    ∧ xml_to_dict (RawNode.mk "B" [] RawForest.nil none) = NValue.obj []
    ∧ (some (NValue.lst [NValue.leaf "x", NValue.obj []])
        : Option NValue) ≠ some (NValue.obj []) := by
  refine ⟨rfl, rfl, ?_⟩
  intro h
  injection h with h2
  exact NValue.noConfusion h2

/-- C2 witness: the list outcome at the counterexample node, and the "text"
overwrite exception at a node with attribute text="x", a child tagged
"text", and non-blank node text, where the final value is the trimmed
leaf. -/
theorem claim_C2_witness :
    valueAt (xml_to_dict (RawNode.mk "M" [("B", "x")]
        (RawForest.cons (RawNode.mk "B" [] RawForest.nil none) RawForest.nil) none)) "B"
      = some (NValue.lst [NValue.leaf "x", NValue.obj []])
    ∧ valueAt (xml_to_dict (RawNode.mk "M" [("text", "x")]
        (RawForest.cons (RawNode.mk "text" [] RawForest.nil none) RawForest.nil)
        (some " hi "))) "text"
      = some (NValue.leaf "hi") := by
  constructor
  · exact ((claim_C2 (RawNode.mk "M" [("B", "x")]
      (RawForest.cons (RawNode.mk "B" [] RawForest.nil none) RawForest.nil) none) "B" "x"
      rfl (fun hh => List.noConfusion hh)).2.1
      (fun hh => absurd hh (by decide)))
  · exact ((claim_C2 (RawNode.mk "M" [("text", "x")]
      (RawForest.cons (RawNode.mk "text" [] RawForest.nil none) RawForest.nil)
      (some " hi ")) "text" "x"
      rfl (fun hh => List.noConfusion hh)).2.2 " hi " rfl rfl (by decide))

/-- C3 (amended): for a node with no tag collision among its children and no
attribute/child-tag collision, and whose own text is absent or blank,
`xml_to_dict` returns the mapping that lists every attribute (as its string
value) followed by every child (as its recursive normalization) in
first-occurrence order, so the key set is exactly the union of attribute
names and child tags. The blank-text proviso is forced by
`claim_C3_counterexample`: non-blank text adds a "text" key beyond that
union. -/
theorem claim_C3 : ∀ (el : RawNode),
    (el.children.toList.map RawNode.tag).Nodup →
    (∀ c ∈ el.children.toList, ∀ p ∈ el.attrib, p.1 ≠ c.tag) →
    textIsBlank el.text = true →
    xml_to_dict el
      = NValue.obj (attribDict el.attrib
          ++ el.children.toList.map (fun c => (c.tag, xml_to_dict c)))
    ∧ objKeys (xml_to_dict el)
      = el.attrib.map Prod.fst ++ el.children.toList.map RawNode.tag := by
  intro el hnodup hdisj hblank
  have hfresh : ∀ c ∈ el.children.toList, dictFind? (attribDict el.attrib) c.tag = none :=
    fun c hc => attribDict_find_none _ _ (fun p hp => hdisj c hc p hp)
  have hmain : xml_to_dict el
      = NValue.obj (attribDict el.attrib
          ++ el.children.toList.map (fun c => (c.tag, xml_to_dict c))) := by
    rw [xml_to_dict_blank el hblank, nodeDict_eq,
        processList_fresh el.children.toList (attribDict el.attrib) hnodup hfresh]
  refine ⟨hmain, ?_⟩
  rw [hmain]
  simp only [objKeys, attribDict, List.map_append, List.map_map]
  rfl

/-- C3 counterexample: a node with one attribute, no children, and non-blank
text has no collision of any kind, yet its key set is ["a", "text"], not the
union ["a"] of attribute names and child tags. -/
theorem claim_C3_counterexample :
    xml_to_dict (RawNode.mk "N" [("a", "1")] RawForest.nil (some "hi"))
      = NValue.obj [("a", NValue.leaf "1"), ("text", NValue.leaf "hi")]
    ∧ objKeys (xml_to_dict (RawNode.mk "N" [("a", "1")] RawForest.nil (some "hi")))
      ≠ ((RawNode.mk "N" [("a", "1")] RawForest.nil (some "hi")).attrib.map Prod.fst
          ++ (RawNode.mk "N" [("a", "1")] RawForest.nil
                (some "hi")).children.toList.map RawNode.tag) :=
  ⟨rfl, by decide⟩

/-- C3 witness: one attribute and one differently-named child, blank text. -/
theorem claim_C3_witness :
    xml_to_dict (RawNode.mk "N" [("a", "1")]
        (RawForest.cons (RawNode.mk "b" [] RawForest.nil none) RawForest.nil) none)
      = NValue.obj [("a", NValue.leaf "1"), ("b", NValue.obj [])]
    ∧ objKeys (xml_to_dict (RawNode.mk "N" [("a", "1")]
        (RawForest.cons (RawNode.mk "b" [] RawForest.nil none) RawForest.nil) none))
      = ["a", "b"] := by
  have h := claim_C3 (RawNode.mk "N" [("a", "1")]
      (RawForest.cons (RawNode.mk "b" [] RawForest.nil none) RawForest.nil) none)
      (by decide) (by decide) rfl
  exact ⟨h.1, h.2⟩

/-- C4 (confirmed): text handling of `xml_to_dict`. A node with non-blank
text and no attributes or children degenerates to the trimmed text as a
scalar leaf; with attributes or children the trimmed text is stored under
the key "text"; absent or blank text is discarded (the result is exactly the
attributes-and-children mapping); a node with attributes but no children and
no meaningful text is an object with only the attribute keys. -/
theorem claim_C4 : ∀ (el : RawNode),
    (∀ t, el.text = some t → pyStrip t ≠ "" → el.attrib = [] →
      el.children = RawForest.nil → xml_to_dict el = NValue.leaf (pyStrip t))
    ∧ (∀ t, el.text = some t → pyStrip t ≠ "" →
        (el.attrib ≠ [] ∨ el.children ≠ RawForest.nil) →
        xml_to_dict el
          = NValue.obj (dictSet (nodeDict el) "text" (NValue.leaf (pyStrip t)))
        ∧ valueAt (xml_to_dict el) "text" = some (NValue.leaf (pyStrip t)))
    ∧ (textIsBlank el.text = true → xml_to_dict el = NValue.obj (nodeDict el))
    ∧ (el.attrib ≠ [] → el.children = RawForest.nil → textIsBlank el.text = true →
        xml_to_dict el = NValue.obj (attribDict el.attrib)
        ∧ objKeys (xml_to_dict el) = el.attrib.map Prod.fst)
  | .mk tg a cs x => by
    refine ⟨?_, ?_, ?_, ?_⟩
    · intro t hx hstrip hattr hch
      have hx2 : x = some t := hx
      have ha2 : a = [] := hattr
      have hc2 : cs = RawForest.nil := hch
      subst hx2
      subst ha2
      subst hc2
      simp [xml_to_dict, hstrip, attribDict, processChildren]
    · intro t hx hstrip hne
      have hx2 : x = some t := hx
      subst hx2
      have hnd : nodeDict (RawNode.mk tg a cs (some t))
          = processChildren cs (attribDict a) := rfl
      have hnenil : processChildren cs (attribDict a) ≠ [] := by
        have := nodeDict_ne_nil (RawNode.mk tg a cs (some t)) hne
        rwa [hnd] at this
      have hemp : (processChildren cs (attribDict a)).isEmpty = false := by
        cases hl : processChildren cs (attribDict a) with
        | nil => exact absurd hl hnenil
        | cons q qs => simp [List.isEmpty]
      have hmain : xml_to_dict (RawNode.mk tg a cs (some t))
          = NValue.obj (dictSet (processChildren cs (attribDict a)) "text"
              (NValue.leaf (pyStrip t))) := by
        simp only [xml_to_dict, hstrip, if_false, hemp, Bool.false_eq_true]
      refine ⟨hmain, ?_⟩
      rw [hmain]
      simp only [valueAt]
      rw [dictFind?_dictSet]
      simp
    · intro hblank
      exact xml_to_dict_blank _ hblank
    · intro hattr hch hblank
      have hc2 : cs = RawForest.nil := hch
      subst hc2
      have hmain : xml_to_dict (RawNode.mk tg a RawForest.nil x)
          = NValue.obj (attribDict a) := by
        rw [xml_to_dict_blank _ hblank]
        rfl
      refine ⟨hmain, ?_⟩
      rw [hmain]
      simp only [objKeys, attribDict, List.map_map]
      rfl

/-- C4 witness: a text-only node degenerates to a trimmed leaf; a node with
an attribute and text keeps the attribute and gains a "text" key; a node
with one attribute and nothing else is the one-key object. -/
theorem claim_C4_witness :
    xml_to_dict (RawNode.mk "n" [] RawForest.nil (some " hi ")) = NValue.leaf "hi"
    ∧ xml_to_dict (RawNode.mk "n" [("a", "1")] RawForest.nil (some " hi "))
      = NValue.obj [("a", NValue.leaf "1"), ("text", NValue.leaf "hi")]
    ∧ xml_to_dict (RawNode.mk "n" [("a", "1")] RawForest.nil none)
      = NValue.obj [("a", NValue.leaf "1")] := by
  refine ⟨?_, ?_, ?_⟩
  · exact (claim_C4 (RawNode.mk "n" [] RawForest.nil (some " hi "))).1 " hi "
      rfl (by decide) rfl rfl
  · exact ((claim_C4 (RawNode.mk "n" [("a", "1")] RawForest.nil (some " hi "))).2.1
      " hi " rfl (by decide) (Or.inl (fun h => List.noConfusion h))).1
  · exact ((claim_C4 (RawNode.mk "n" [("a", "1")] RawForest.nil none)).2.2.2
      (fun h => List.noConfusion h) rfl rfl).1

theorem isOkE_pyIntE (x : String) : isOkE (pyIntE x) = (pyInt? x).isSome := by
  cases h : pyInt? x <;> simp [pyIntE, h, isOkE]

theorem lookup_mem_pairs (l : List (String × String)) (d v : String)
    (h : List.lookup d l = some v) : (d, v) ∈ l := by
  induction l with
  | nil => simp [List.lookup] at h
  | cons p rest ih =>
    obtain ⟨k1, v1⟩ := p
    by_cases hd : d = k1
    · have hb : (d == k1) = true := beq_iff_eq.mpr hd
      simp only [List.lookup, hb] at h
      injection h with hv
      subst hd
      subst hv
      simp
    · have hb : (d == k1) = false := by
        simpa using hd
      simp only [List.lookup, hb] at h
      exact List.mem_cons_of_mem _ (ih h)

theorem dpd_mapping_values_numeric : ∀ p ∈ dpd_mapping, (pyInt? p.2).isSome = true := by
  decide

/-- C5 (amended): `parse_dpd_code` splits the status on "/" and succeeds if
and only if the split yields exactly two fields and the dpd-field is either
a symbolic code of the table or an integer literal; symbolic dpd-fields map
to their fixed day counts (XXX,STD,DDD to 0, SUB to 91, DBT to 151, LSS to
181, SMA to 61) and numeric dpd-fields to their literal value. The claim's
"fails if and only if no '/' is present" is refuted by
`claim_C5_counterexample`: a status with two slashes, or a two-field status
whose dpd-field is neither symbolic nor numeric, also fails. -/
theorem claim_C5 :
    (∀ s, isOkE (parse_dpd_code s) = true ↔
        ∃ d c, pySplit '/' s = [d, c]
          ∧ ((List.lookup d dpd_mapping).isSome = true ∨ (pyInt? d).isSome = true))
    ∧ parse_dpd_code "XXX/01" = .ok 0
    ∧ parse_dpd_code "STD/02" = .ok 0
    ∧ parse_dpd_code "SUB/03" = .ok 91
    ∧ parse_dpd_code "DBT/04" = .ok 151
    ∧ parse_dpd_code "LSS/05" = .ok 181
    ∧ parse_dpd_code "SMA/06" = .ok 61
    ∧ parse_dpd_code "DDD/07" = .ok 0
    ∧ parse_dpd_code "091/02" = .ok 91
    ∧ parse_dpd_code "045/00" = .ok 45
    ∧ isOkE (parse_dpd_code "nodelimiter") = false := by
  refine ⟨?_, rfl, rfl, rfl, rfl, rfl, rfl, rfl, rfl, rfl, rfl⟩
  intro s
  cases hs : pySplit '/' s with
  | nil =>
    simp only [parse_dpd_code, hs]
    constructor
    · intro h
      simp [isOkE] at h
    · rintro ⟨d, c, hdc, _⟩
      simp at hdc
  | cons d tail =>
    cases htail : tail with
    | nil =>
      subst htail
      simp only [parse_dpd_code, hs]
      constructor
      · intro h
        simp [isOkE] at h
      · rintro ⟨d2, c2, hdc, _⟩
        simp at hdc
    | cons c tail2 =>
      subst htail
      cases htail2 : tail2 with
      | cons e rest =>
        subst htail2
        simp only [parse_dpd_code, hs]
        constructor
        · intro h
          simp [isOkE] at h
        · rintro ⟨d2, c2, hdc, _⟩
          simp at hdc
      | nil =>
        subst htail2
        simp only [parse_dpd_code, hs]
        cases hl : List.lookup d dpd_mapping with
        | some v =>
          have hv : (pyInt? v).isSome = true :=
            dpd_mapping_values_numeric (d, v) (lookup_mem_pairs _ _ _ hl)
          constructor
          · intro _
            exact ⟨d, c, rfl, Or.inl (by rw [hl]; rfl)⟩
          · intro _
            rw [isOkE_pyIntE]
            exact hv
        | none =>
          rw [isOkE_pyIntE]
          constructor
          · intro h
            exact ⟨d, c, rfl, Or.inr h⟩
          · rintro ⟨d2, c2, hdc, hor⟩
            have hd2 : d2 = d := by
              simp at hdc
              exact hdc.1.symm
            subst hd2
            rcases hor with hor | hor
            · rw [hl] at hor
              simp at hor
            · exact hor

/-- C5 counterexample: "091/02/03" contains "/" yet `parse_dpd_code` fails
(three fields cannot unpack into two), and "ABC/01" splits into exactly two
fields yet fails as well (the dpd-field is neither symbolic nor numeric) —
so failing is not equivalent to the absence of "/". -/
theorem claim_C5_counterexample :
    isOkE (parse_dpd_code "091/02/03") = false
    ∧ '/' ∈ "091/02/03".data
    ∧ isOkE (parse_dpd_code "ABC/01") = false
    ∧ pySplit '/' "ABC/01" = ["ABC", "01"] :=
  ⟨rfl, by decide, rfl, rfl⟩

/-- C5 witness: the success criterion applied at "XXX/01". -/
theorem claim_C5_witness : isOkE (parse_dpd_code "XXX/01") = true :=
  (claim_C5.1 "XXX/01").mpr ⟨"XXX", "01", rfl, Or.inl rfl⟩

theorem phLoop_filterMap (es : List String) :
    phLoop es = es.filterMap (fun e => if pyStrip e = "" then none else parseEntry? e) := by
  induction es with
  | nil => rfl
  | cons e rest ih =>
    by_cases hb : pyStrip e = ""
    · simp [phLoop, hb, List.filterMap_cons, ih]
    · cases hp : parseEntry? e with
      | some r => simp [phLoop, hb, hp, List.filterMap_cons, ih]
      | none => simp [phLoop, hb, hp, List.filterMap_cons, ih]

/-- C6 (confirmed): `parse_payment_history` splits on "|" and keeps, in split
order and without deduplication or re-sorting, exactly the non-blank
segments that split on "," into two fields (each kept segment becoming a
(date, status) record); other segments are silently dropped. The three
example evaluations of the claim hold. -/
theorem claim_C6 :
    (∀ s, parse_payment_history s
        = (pySplit '|' s).filterMap
            (fun e => if pyStrip e = "" then none else parseEntry? e))
    ∧ parse_payment_history "01-2020,XXX/01|02-2020,091/02"
      = [⟨"01-2020", "XXX/01"⟩, ⟨"02-2020", "091/02"⟩]
    ∧ parse_payment_history "" = []
    ∧ parse_payment_history "bad-entry|01-2020,XXX/01" = [⟨"01-2020", "XXX/01"⟩] := by
  refine ⟨?_, rfl, rfl, rfl⟩
  intro s
  by_cases hs : s = ""
  · subst hs
    rfl
  · simp only [parse_payment_history, hs, if_false]
    exact phLoop_filterMap _

/-- C7 (amended): a malformed status code is NOT caught inside the analysis
routines — any bad payment entry anywhere in a customer's document makes the
whole `analyze_customer_dpd` call fail — but the failure is caught at
per-file (per-customer) granularity by the `try`/`except` inside
`run_analysis` of main.py, so one bad customer does not abort the batch: the
remaining reports are still analyzed and collected. -/
theorem claim_C7 :
    (∀ doc : AnalysisDocument,
      (∃ loan ∈ doc.loans, ∃ p ∈ loan.payment_history,
          isOkE (parse_dpd_code p.status) = false) →
      isOkE (analyze_customer_dpd doc) = false)
    ∧ (∀ (pre : List AnalysisDocument) (bad : AnalysisDocument)
          (post : List AnalysisDocument),
        isOkE (analyze_customer_dpd bad) = false →
        run_analysis_dpd (pre ++ bad :: post) = run_analysis_dpd (pre ++ post)) :=
  ⟨analyze_customer_dpd_error, run_analysis_dpd_skip⟩

/-- C7 counterexample: a document with one fully well-formed loan and one
loan containing a single malformed payment status has its entire customer
analysis abort (`analyze_customer_dpd` fails), while the same document
without the offending loan succeeds — the malformed code is not caught at
per-loan or per-payment granularity inside the analysis routine. -/
theorem claim_C7_counterexample :
    isOkE (analyze_customer_dpd (mkDoc [goodLoanEx, badLoanEx])) = false
    ∧ isOkE (analyze_customer_dpd (mkDoc [goodLoanEx])) = true :=
  ⟨rfl, rfl⟩

/-- C7 witness: the per-file skip applied to a concrete batch. -/
theorem claim_C7_witness :
    isOkE (analyze_customer_dpd (mkDoc [badLoanEx])) = false
    ∧ run_analysis_dpd [mkDoc [goodLoanEx], mkDoc [badLoanEx]]
      = run_analysis_dpd [mkDoc [goodLoanEx]] := by
  have h1 : isOkE (analyze_customer_dpd (mkDoc [badLoanEx])) = false :=
    claim_C7.1 (mkDoc [badLoanEx])
      ⟨badLoanEx, by simp [mkDoc], ⟨"02-2020", "nodelimiter"⟩, by simp [badLoanEx], rfl⟩
  exact ⟨h1, claim_C7.2 [mkDoc [goodLoanEx]] (mkDoc [badLoanEx]) [] h1⟩

theorem exceptBind_ok {α β : Type} (a : α) (f : α → Except String β) :
    (Except.ok a >>= f : Except String β) = f a := rfl

theorem exceptPure_eq {α : Type} (a : α) : (pure a : Except String α) = Except.ok a := rfl

/-- C8 (amended): projection is best-effort. Whenever every container the
projector traverses is a mapping — each step taken on the `.get` default
when its key is absent — and each loan's payment-history value is a string
(or absent, defaulting to ""), `analyze_credit_report` completes
successfully, with every field of the document equal to the (possibly
absent, hence None) lookup of its source key: absence of any optional field
or path never raises, and in particular a tree lacking the report container
entirely yields the all-None document with no loans. Consequently a fatal
error can arise only when a traversed value is not a mapping (or a
payment-history value is a truthy non-string), never from absence; the last
conjunct shows such a fatal error concretely on a tree that normalizes to a
bare string. -/
theorem claim_C8 :
    (∀ (el : RawNode) (data indv report header scores score accounts derived primary
        responsesC : Dict) (resp : NValue) (loans : List Loan),
      xml_to_dict el = NValue.obj data →
      (dictFind? data "INDV-REPORTS").getD (NValue.obj []) = NValue.obj indv →
      (dictFind? indv "INDV-REPORT").getD (NValue.obj []) = NValue.obj report →
      (dictFind? report "HEADER").getD (NValue.obj []) = NValue.obj header →
      (dictFind? report "SCORES").getD (NValue.obj []) = NValue.obj scores →
      (dictFind? scores "SCORE").getD (NValue.obj []) = NValue.obj score →
      (dictFind? report "ACCOUNTS-SUMMARY").getD (NValue.obj []) = NValue.obj accounts →
      (dictFind? accounts "DERIVED-ATTRIBUTES").getD (NValue.obj []) = NValue.obj derived →
      (dictFind? accounts "PRIMARY-ACCOUNTS-SUMMARY").getD (NValue.obj [])
        = NValue.obj primary →
      (dictFind? report "RESPONSES").getD (NValue.obj []) = NValue.obj responsesC →
      (dictFind? responsesC "RESPONSE").getD (NValue.lst []) = resp →
      loansLoop (responsesOf resp) = .ok loans →
      analyze_credit_report el = .ok
        { report_date := dictFind? header "DATE-OF-ISSUE",
          credit_score := { value := dictFind? score "SCORE-VALUE",
                            score_type := dictFind? score "SCORE-TYPE",
                            comments := dictFind? score "SCORE-COMMENTS" },
          summary := { total_accounts := dictFind? primary "PRIMARY-NUMBER-OF-ACCOUNTS",
                       active_accounts :=
                         dictFind? primary "PRIMARY-ACTIVE-NUMBER-OF-ACCOUNTS",
                       overdue_accounts :=
                         dictFind? primary "PRIMARY-OVERDUE-NUMBER-OF-ACCOUNTS",
                       total_balance := dictFind? primary "PRIMARY-CURRENT-BALANCE",
                       credit_history_years :=
                         dictFind? derived "LENGTH-OF-CREDIT-HISTORY-YEAR",
                       recent_inquiries :=
                         dictFind? derived "INQUIRIES-IN-LAST-SIX-MONTHS" },
          loans := loans })
    ∧ (∀ (r : NValue) (mr ld : Dict) (phv : String),
      r = NValue.obj mr →
      (dictFind? mr "LOAN-DETAILS").getD (NValue.obj []) = NValue.obj ld →
      (dictFind? ld "COMBINED-PAYMENT-HISTORY").getD (NValue.leaf "") = NValue.leaf phv →
      format_loan_details r = .ok
        { account_type := dictFind? ld "ACCT-TYPE",
          status := dictFind? ld "ACCOUNT-STATUS",
          amount := dictFind? ld "DISBURSED-AMT",
          current_balance := dictFind? ld "CURRENT-BAL",
          disbursed_date := dictFind? ld "DISBURSED-DATE",
          closed_date := dictFind? ld "CLOSED-DATE",
          security_status := dictFind? ld "SECURITY-STATUS",
          payment_history := parse_payment_history phv })
    ∧ (∀ rs : List NValue, (∀ r ∈ rs, ∃ l, format_loan_details r = .ok l) →
      ∃ ls, loansLoop rs = .ok ls)
    ∧ isOkE (analyze_credit_report (RawNode.mk "r" [] RawForest.nil (some "x"))) = false := by
  refine ⟨?_, ?_, ?_, rfl⟩
  · intro el data indv report header scores score accounts derived primary responsesC resp
      loans hx h1 h2 h3 h4 h5 h6 h7 h8 h9 h10 h11
    simp only [analyze_credit_report, hx, pyGetD, pyGet?, h1, h2, h3, h4, h5, h6, h7, h8,
      h9, h10, h11, exceptBind_ok, exceptPure_eq]
  · intro r mr ld phv hr h1 h2
    simp only [format_loan_details, hr, pyGetD, pyGet?, h1, h2, paymentHistoryOf,
      exceptBind_ok, exceptPure_eq]
  · intro rs
    induction rs with
    | nil => exact fun _ => ⟨[], rfl⟩
    | cons r rest ih =>
      intro h
      obtain ⟨l, hl⟩ := h r (by simp)
      obtain ⟨ls, hls⟩ := ih (fun q hq => h q (by simp [hq]))
      exact ⟨l :: ls, by simp [loansLoop, hl, hls]⟩

/-- C8 counterexample: the empty element normalizes to an empty mapping — no
report container exists at all — yet projection completes successfully with
the all-None document instead of surfacing a fatal error, refuting the
claim's "required top-level path absent ⟹ fatal error". -/
theorem claim_C8_counterexample :
    xml_to_dict (RawNode.mk "r" [] RawForest.nil none) = NValue.obj []
    ∧ analyze_credit_report (RawNode.mk "r" [] RawForest.nil none)
      = .ok emptyAnalysisDocument :=
  ⟨rfl, rfl⟩

/-- C8 witness: the general characterization applied to a partially-present
tree (a HEADER date and one loan present; SCORES, ACCOUNTS-SUMMARY and every
remaining optional field absent): projection completes, present fields are
extracted and absent ones come out as None. -/
theorem claim_C8_witness :
    analyze_credit_report partialReportTree
      = .ok { report_date := some (NValue.leaf "01-01-2024"),
              credit_score := { value := none, score_type := none, comments := none },
              summary := { total_accounts := none, active_accounts := none,
                           overdue_accounts := none, total_balance := none,
                           credit_history_years := none, recent_inquiries := none },
              loans := [loanEx] } :=
  claim_C8.1 partialReportTree _ _ _ _ _ _ _ _ _ _ _ _
    rfl rfl rfl rfl rfl rfl rfl rfl rfl rfl rfl rfl

/-- C9 (confirmed): the projector normalizes the RESPONSE container into a
uniform sequence before iterating — a non-list value is wrapped into a
one-element list, and projecting it yields exactly what projecting the same
value inside an actual list yields. End to end, the single-RESPONSE tree
projects to a one-element loans sequence whose entry equals each of the two
entries produced by the colliding two-RESPONSE tree. -/
theorem claim_C9 :
    (∀ v : NValue, (∀ xs, v ≠ NValue.lst xs) →
      responsesOf v = [v] ∧ responsesOf (NValue.lst [v]) = [v]
      ∧ loansLoop (responsesOf v) = loansLoop (responsesOf (NValue.lst [v])))
    ∧ Except.map AnalysisDocument.loans (analyze_credit_report reportTreeSingle)
      = .ok [loanEx]
    ∧ Except.map AnalysisDocument.loans (analyze_credit_report reportTreeDouble)
      = .ok [loanEx, loanEx] := by
  refine ⟨?_, rfl, rfl⟩
  intro v hv
  have h1 : responsesOf v = [v] := by
    cases v with
    | lst xs => exact absurd rfl (hv xs)
    | leaf s => rfl
    | obj m => rfl
  refine ⟨h1, rfl, ?_⟩
  rw [h1]
  rfl

/-- C9 witness: the wrap rule applied to the empty object. -/
theorem claim_C9_witness :
    responsesOf (NValue.obj []) = [NValue.obj []]
    ∧ loansLoop (responsesOf (NValue.obj []))
      = loansLoop (responsesOf (NValue.lst [NValue.obj []])) := by
  have h := claim_C9.1 (NValue.obj []) (fun xs hh => NValue.noConfusion hh)
  exact ⟨h.1, h.2.2⟩

/-- C10 (confirmed): when every payment status of every loan decodes,
`analyze_customer_dpd` succeeds; its `total_trades` is the number of loans,
`trades_with_30plus_dpd` is at most `total_trades`, the rounded percentage
lies between 0 and 100 and is exactly 0 for zero loans (the division is
guarded and never evaluated on a zero denominator), and each loan detail's
`has_30plus_dpd` flag is true exactly when that loan has a payment whose
decoded DPD is at least 30. -/
theorem claim_C10 : ∀ doc : AnalysisDocument,
    (∀ loan ∈ doc.loans, ∀ p ∈ loan.payment_history,
        isOkE (parse_dpd_code p.status) = true) →
    ∃ stats, analyze_customer_dpd doc = .ok stats
      ∧ stats.total_trades = doc.loans.length
      ∧ stats.trades_with_30plus_dpd ≤ stats.total_trades
      ∧ 0 ≤ stats.percentage ∧ stats.percentage ≤ 100
      ∧ (doc.loans.length = 0 → stats.percentage = 0)
      ∧ List.Forall₂ (fun (dl : DpdLoanDetail) (loan : Loan) =>
          dl.has_30plus_dpd = true ↔
            ∃ p ∈ loan.payment_history, ∃ n, parse_dpd_code p.status = .ok n ∧ 30 ≤ n)
          stats.loan_details doc.loans := by
  intro doc hok
  have hloop := loanDetailsLoop_ok doc.loans hok
  have hA : analyze_customer_dpd doc = .ok
      { total_trades := doc.loans.length,
        trades_with_30plus_dpd :=
          ((doc.loans.map loanDetailOf).filter (fun l => l.has_30plus_dpd)).length,
        percentage := round2 (if doc.loans.length > 0
          then (((doc.loans.map loanDetailOf).filter
                  (fun l => l.has_30plus_dpd)).length : ℚ)
                / (doc.loans.length : ℚ) * 100 else 0),
        loan_details := doc.loans.map loanDetailOf } := by
    simp only [analyze_customer_dpd, hloop]
  have htle : ((doc.loans.map loanDetailOf).filter (fun l => l.has_30plus_dpd)).length
      ≤ doc.loans.length := by
    calc ((doc.loans.map loanDetailOf).filter (fun l => l.has_30plus_dpd)).length
        ≤ (doc.loans.map loanDetailOf).length := List.length_filter_le _ _
      _ = doc.loans.length := List.length_map _ _
  have hpb : 0 ≤ round2 (if doc.loans.length > 0
        then (((doc.loans.map loanDetailOf).filter
                (fun l => l.has_30plus_dpd)).length : ℚ)
              / (doc.loans.length : ℚ) * 100 else 0)
      ∧ round2 (if doc.loans.length > 0
        then (((doc.loans.map loanDetailOf).filter
                (fun l => l.has_30plus_dpd)).length : ℚ)
              / (doc.loans.length : ℚ) * 100 else 0) ≤ 100 := by
    by_cases hTz : doc.loans.length > 0
    · rw [if_pos hTz]
      have hTpos : (0 : ℚ) < (doc.loans.length : ℚ) := by exact_mod_cast hTz
      have hle : (((doc.loans.map loanDetailOf).filter
            (fun l => l.has_30plus_dpd)).length : ℚ) ≤ (doc.loans.length : ℚ) := by
        exact_mod_cast htle
      have h0 : (0 : ℚ) ≤ (((doc.loans.map loanDetailOf).filter
            (fun l => l.has_30plus_dpd)).length : ℚ)
              / (doc.loans.length : ℚ) * 100 := by positivity
      have h1 : (((doc.loans.map loanDetailOf).filter
            (fun l => l.has_30plus_dpd)).length : ℚ)
              / (doc.loans.length : ℚ) * 100 ≤ 100 := by
        have hdiv : (((doc.loans.map loanDetailOf).filter
              (fun l => l.has_30plus_dpd)).length : ℚ)
                / (doc.loans.length : ℚ) ≤ 1 := by
          rw [div_le_one hTpos]
          exact hle
        nlinarith
      exact round2_bounds _ h0 h1
    · rw [if_neg hTz, round2_zero]
      norm_num
  have hflag : ∀ loan : Loan, (loanDetailOf loan).has_30plus_dpd = true ↔
      ∃ p ∈ loan.payment_history, ∃ n, parse_dpd_code p.status = .ok n ∧ 30 ≤ n := by
    intro loan
    simp only [loanDetailOf, decide_eq_true_eq]
    rw [filterMap_length_pos_iff]
    constructor
    · rintro ⟨p, hp, hsome⟩
      exact ⟨p, hp, (dpdEntry?_isSome p).mp hsome⟩
    · rintro ⟨p, hp, hn⟩
      exact ⟨p, hp, (dpdEntry?_isSome p).mpr hn⟩
  refine ⟨_, hA, rfl, htle, hpb.1, hpb.2, ?_, ?_⟩
  · intro h0
    have hTz : ¬ doc.loans.length > 0 := by omega
    simp only [if_neg hTz, round2_zero]
  · exact forall2_map_self _ loanDetailOf doc.loans (fun loan _ => hflag loan)

/-- C10 witness: the invariants at a concrete one-loan document whose
statuses all decode. -/
theorem claim_C10_witness :
    (∀ loan ∈ (mkDoc [goodLoanEx]).loans, ∀ p ∈ loan.payment_history,
        isOkE (parse_dpd_code p.status) = true)
    ∧ ∃ stats, analyze_customer_dpd (mkDoc [goodLoanEx]) = .ok stats
      ∧ stats.total_trades = (mkDoc [goodLoanEx]).loans.length
      ∧ stats.trades_with_30plus_dpd ≤ stats.total_trades
      ∧ 0 ≤ stats.percentage ∧ stats.percentage ≤ 100
      ∧ ((mkDoc [goodLoanEx]).loans.length = 0 → stats.percentage = 0)
      ∧ List.Forall₂ (fun (dl : DpdLoanDetail) (loan : Loan) =>
          dl.has_30plus_dpd = true ↔
            ∃ p ∈ loan.payment_history, ∃ n, parse_dpd_code p.status = .ok n ∧ 30 ≤ n)
          stats.loan_details (mkDoc [goodLoanEx]).loans :=
  ⟨by decide, claim_C10 (mkDoc [goodLoanEx]) (by decide)⟩
